import Mathlib

/-!
# Verification of the voiceloop RAG pipeline

Shallow embedding, in Lean 4, of the retrieval-augmented-generation core of
the voiceloop repository:

* the character chunker `chunk_text` of
  `File Uploads and Intelligent Processing/file_upload.py`;
* the environment-configured chunker `_chunk_content` and the
  semantic / keyword / hybrid search of
  `backend/Building AI Summarization and Unified Calendar Backend/services/rag_service.py`;
* the ChromaDB-backed `RAGService` of
  `backend/voiceloop-backend/services/rag_service.py`
  (`process_document`, `chunk_text`, `search`, `_semantic_search`,
  `_keyword_search`, `_hybrid_search`, `_extract_key_terms`,
  `_format_chroma_results`, `_deduplicate_results`, `_rerank_results`,
  `_enhance_search_results`).

Modelling conventions:

* Python strings are `List Char`; Python slices, `str.strip`, `str.rfind`,
  `str.split`, `re.split` and `re.findall` are reproduced by the `py*`
  helpers below, including Python's negative-index slice semantics (which
  the chunker of `file_upload.py` actually exercises).
* Python floats (similarity scores, distances) are exact integers scaled by
  1000 (for raw relevance/distance values) resp. 5000 (for composite
  re-rank scores): every float expression in the translated code is a sum of
  multiples of 1/1000 resp. 1/5000 of its inputs, so fixed-point integers
  represent them exactly and give the same order.
* The while-loops of the chunkers are modelled with explicit fuel, because
  for some parameter values (`overlap > chunk_size // 2`) the Python loop
  of `file_upload.chunk_text` does not terminate; `none` means the fuel ran
  out before the loop finished.
* External collaborators keep only their documented interface: the
  embedding model and cosine distance of ChromaDB appear as an arbitrary
  distance function argument, and ChromaDB's `query(..., where=...)`
  applies the `where` equality filters before distance ranking and
  truncation, as its documentation states.  `uuid.uuid4()` is modelled as a
  fresh-counter supply threaded through the state.
* Python's `list.sort` is stable; any stable sort of a total preorder
  computes the same list, and we use a structural insertion sort so that
  results are kernel-computable.
-/

/-- Python's default whitespace set for `str.strip`. -/
def pyIsSpace (c : Char) : Bool :=
  c == ' ' || c == '\t' || c == '\n' || c == '\r' || c == '\x0b' || c == '\x0c'

/-- Python `str.strip()` on a character list. -/
def pyStrip (l : List Char) : List Char :=
  ((l.dropWhile pyIsSpace).reverse.dropWhile pyIsSpace).reverse

/-- Resolve one Python slice bound: negative indices count from the end and
clamp at 0, positive ones clamp at the length. -/
def pyBound (n : Nat) (i : Int) : Nat :=
  if i < 0 then n - (-i).toNat else min i.toNat n

/-- Python slice `l[s:e]`. -/
def pySlice (l : List Char) (s e : Int) : List Char :=
  let a := pyBound l.length s
  let b := pyBound l.length e
  (l.drop a).take (b - a)

/-- Python `str.rfind(c)`: index of the last occurrence, or `-1`. -/
def pyRfind (l : List Char) (c : Char) : Int :=
  match (l.enum.filter (fun p => p.2 == c)).getLast? with
  | some p => (p.1 : Int)
  | none => -1

/-- Python `str.lower()` (ASCII case, which is all the sources use). -/
def pyLower (l : List Char) : List Char :=
  l.map Char.toLower

/-- Python substring test `needle in hay` (contiguous occurrence). -/
def pyContains (hay needle : List Char) : Bool :=
  if needle.isPrefixOf hay then true
  else
    match hay with
    | [] => false
    | _ :: t => pyContains t needle

/-- Stable insertion of `x` in front of the first element it must precede;
ties keep `x` (the originally earlier element) first. -/
def stableInsert (le : α → α → Bool) (x : α) : List α → List α
  | [] => [x]
  | y :: ys => if le x y then x :: y :: ys else y :: stableInsert le x ys

/-- Stable sort (the unique result of Python's stable `list.sort` for a
total preorder `le`). -/
def stableSort (le : α → α → Bool) : List α → List α
  | [] => []
  | x :: xs => stableInsert le x (stableSort le xs)

/-- Seen-set based deduplication keyed by `key`, keeping the first
occurrence of each key — the loop of `RAGService._deduplicate_results` and
of the inline dedup in `_hybrid_search` of the Building-AI variant. -/
def dedupByLoop [DecidableEq β] (key : α → β) (seen : List β) : List α → List α
  | [] => []
  | r :: rs =>
    if key r ∈ seen then dedupByLoop key seen rs
    else r :: dedupByLoop key (key r :: seen) rs

def dedupBy [DecidableEq β] (key : α → β) (l : List α) : List α :=
  dedupByLoop key [] l

/-! ## The chunker of `File Uploads and Intelligent Processing/file_upload.py` -/

/-- A chunk together with the span `[start, stop)` of the slice it was cut
from (the Python code keeps only the stripped text; the span records the
`start`/`end` variables of the loop for the coverage property). -/
structure SpanChunk where
  start : Int
  stop : Int
  text : List Char
  deriving DecidableEq

namespace FileUpload

/-- One iteration body of the `while` loop of `chunk_text`: compute
`end = start + chunk_size`, slice, and — when the end lies strictly inside
the text — move the cut to after the last `.`/newline of the slice provided
that (index compared as in the source, i.e. the `rfind` result relative to
the slice against the absolute `start + chunk_size // 2`) it is large
enough.  Returns the updated `end` and the chunk text. -/
def chunk_step (text : List Char) (chunk_size : Nat) (start : Int) :
    Int × List Char :=
  let e := start + (chunk_size : Int)
  let chunk := pySlice text start e
  if e < (text.length : Int) then
    let last_period := pyRfind chunk '.'
    let last_newline := pyRfind chunk '\n'
    let break_point := max last_period last_newline
    if break_point > start + ((chunk_size / 2 : Nat) : Int) then
      (break_point + 1, pySlice text start (break_point + 1))
    else (e, chunk)
  else (e, chunk)

/-- The `while start < len(text)` loop of `chunk_text`, with fuel: each
iteration appends the stripped chunk and sets `start = end - overlap` (the
trailing `if start >= len(text): break` coincides with the loop guard).
`none` means the fuel was exhausted before the loop finished. -/
def chunk_text_loop (text : List Char) (chunk_size overlap : Nat) :
    Nat → Int → Option (List SpanChunk)
  | 0, _ => none
  | fuel + 1, start =>
    if start < (text.length : Int) then
      let s := chunk_step text chunk_size start
      match chunk_text_loop text chunk_size overlap fuel (s.1 - overlap) with
      | none => none
      | some rest => some (⟨start, s.1, pyStrip s.2⟩ :: rest)
    else some []

/-- The `chunk_text(text, chunk_size=1000, overlap=200)` of `file_upload.py`,
run with enough fuel for every execution that makes progress at each step. -/
def chunk_text (text : List Char) (chunk_size overlap : Nat) :
    Option (List (List Char)) :=
  (chunk_text_loop text chunk_size overlap (text.length + 1) 0).map
    (·.map SpanChunk.text)

end FileUpload

/-! ## `RAGService._chunk_content` of the Building-AI backend variant -/

namespace RagB

/-- The `while start < len(content)` loop of `_chunk_content`: slice
`content[start:start+chunk_size]`, append it unstripped, and set
`start = end - overlap` (the trailing `if start >= len(content): break`
coincides with the loop guard).  Fuel as in `FileUpload.chunk_text_loop`. -/
def chunk_content_loop (content : List Char) (chunk_size overlap : Nat) :
    Nat → Int → Option (List (List Char))
  | 0, _ => none
  | fuel + 1, start =>
    if start < (content.length : Int) then
      let e := start + (chunk_size : Int)
      match chunk_content_loop content chunk_size overlap fuel (e - overlap) with
      | none => none
      | some rest => some (pySlice content start e :: rest)
    else some []

/-- The `_chunk_content(content)` with `chunk_size = CHUNK_SIZE` and
`overlap = CHUNK_OVERLAPS` taken as parameters (the source reads them from
the environment, defaults 1000 and 200). -/
def chunk_content (content : List Char) (chunk_size overlap : Nat) :
    Option (List (List Char)) :=
  chunk_content_loop content chunk_size overlap (content.length + 1) 0

end RagB

/-! ## The search pipeline of the Building-AI backend variant -/

namespace RagB

/-- A stored row of the `content_chunks` table, with the attributes the
search code reads (`id`, `user_id`, `content`, `chunk_index`, `meta_data`,
`created_at`; the source filters the table with `.eq('user_id', ...)`). -/
structure ChunkRow where
  id : String
  user_id : String
  content : List Char
  chunk_index : Nat
  meta_data : List Char
  created_at : Nat
  deriving DecidableEq

/-- A search-result dict as built by `_semantic_search`/`_keyword_search`;
`title`/`file_type` are the constants of the source, similarity scores are
fixed-point thousandths (800 = 0.8, 700 = 0.7), and `ai_insights` is the
key optionally added later by `enhance_search_results`. -/
structure ResultRow where
  id : String
  content : List Char
  chunk_index : Nat
  meta_data : List Char
  title : String
  file_type : String
  created_at : Nat
  similarity_score : Int
  ai_insights : Option (List Char)
  deriving DecidableEq

/-- Search-time state: the stored chunks plus failure-injection flags for
the two retrieval paths (`true` = the corresponding Supabase call raises,
so the `except` branch of the source returns `[]`). -/
structure SearchState where
  chunks : List ChunkRow
  semanticFails : Bool
  keywordFails : Bool
  deriving DecidableEq

def toSemanticRow (c : ChunkRow) : ResultRow :=
  { id := c.id, content := c.content, chunk_index := c.chunk_index,
    meta_data := c.meta_data, title := "Document Chunk", file_type := "chunk",
    created_at := c.created_at, similarity_score := 800, ai_insights := none }

def toKeywordRow (c : ChunkRow) : ResultRow :=
  { toSemanticRow c with similarity_score := 700 }

/-- The `_semantic_search`: select the user's chunks truncated to `limit` (the
simplified source returns them all with placeholder similarity 0.8); on
failure, `[]`. -/
def semantic_search (st : SearchState) (_query : List Char) (user_id : String)
    (limit : Nat) : List ResultRow :=
  if st.semanticFails then []
  else ((st.chunks.filter (fun c => c.user_id == user_id)).take limit).map
    toSemanticRow

/-- The `_keyword_search`: select the user's chunks truncated to `limit`, keep
those whose lowercased content contains the lowercased query, truncate to
`limit` again; on failure, `[]`. -/
def keyword_search (st : SearchState) (query : List Char) (user_id : String)
    (limit : Nat) : List ResultRow :=
  if st.keywordFails then []
  else
    ((((st.chunks.filter (fun c => c.user_id == user_id)).take limit).filter
      (fun c => pyContains (pyLower c.content) (pyLower query))).map
      toKeywordRow).take limit

/-- The `unique_results.sort(key=lambda x: x.get('similarity_score', 0),
reverse=True)`: Python's stable descending sort. -/
def sortBySimilarity (l : List ResultRow) : List ResultRow :=
  stableSort (fun a b => b.similarity_score ≤ a.similarity_score) l

/-- The `_hybrid_search`: `limit // 2` candidates from each path, concatenated
semantic-first, deduplicated by chunk id keeping the first occurrence,
sorted by similarity descending, truncated to `limit`. -/
def hybrid_search (st : SearchState) (query : List Char) (user_id : String)
    (limit : Nat) : List ResultRow :=
  let semantic_results := semantic_search st query user_id (limit / 2)
  let keyword_results := keyword_search st query user_id (limit / 2)
  let combined_results := semantic_results ++ keyword_results
  let unique_results := dedupBy ResultRow.id combined_results
  (sortBySimilarity unique_results).take limit

/-- The `search`: dispatch on `search_type`; anything other than `semantic` or
`keyword` goes to hybrid. -/
def search (st : SearchState) (query : List Char) (user_id : String)
    (search_type : String) (limit : Nat) : List ResultRow :=
  if search_type == "semantic" then semantic_search st query user_id limit
  else if search_type == "keyword" then keyword_search st query user_id limit
  else hybrid_search st query user_id limit

/-- The `enhance_search_results`: `none` models the generative call raising
(or no API key), in which case the results come back unchanged; otherwise
every result gets the `ai_insights` payload attached. -/
def enhance_search_results (ai : Option (List Char)) (_query : List Char)
    (results : List ResultRow) : List ResultRow :=
  match results with
  | [] => results
  | _ =>
    match ai with
    | none => results
    | some insights => results.map (fun r => { r with ai_insights := some insights })

end RagB

namespace RagC

/-- The `ai_analysis` payload attached by `_enhance_search_results`: the parsed
JSON analysis, or `{'raw_response': ...}` when `json.loads` fails. -/
inductive AIAnalysis where
  | parsed (content : List Char)
  | raw (content : List Char)
  deriving DecidableEq

/-- Chunk metadata as written by `process_document` (`created_day` stands
for `created_timestamp`, in days, so the recency bonus of
`_rerank_results` is computable). -/
structure ChunkMeta where
  document_id : Nat
  user_id : String
  chunk_index : Nat
  start_position : Nat
  end_position : Nat
  chunk_type : String
  document_title : String
  document_type : String
  category : String
  tags : List String
  created_day : Nat
  deriving DecidableEq

/-- An entry of the Chroma collection: the chroma id
`f"{doc_id}_chunk_{i}"` (as the pair of uuid counter and index), the chunk
text, and the metadata. -/
structure StoredChunk where
  cid : Nat × Nat
  text : List Char
  meta : ChunkMeta
  deriving DecidableEq

/-- Metadata lookup for `where`-filter keys (the string-rendered fields;
`document_id` is rendered as the Python f-string would render it). -/
def metaGet (m : ChunkMeta) (key : String) : Option String :=
  if key == "user_id" then some m.user_id
  else if key == "document_id" then some (Nat.repr m.document_id)
  else if key == "chunk_type" then some m.chunk_type
  else if key == "document_title" then some m.document_title
  else if key == "document_type" then some m.document_type
  else if key == "category" then some m.category
  else none

/-- A Chroma `where` clause as a key/value list standing for a Python dict
(first binding of a key wins, as after `dict.update`): the metadata must
agree with every key of the dict. -/
def whereMatches (w : List (String × String)) (m : ChunkMeta) : Bool :=
  w.all (fun kv =>
    match w.lookup kv.1 with
    | some v => metaGet m kv.1 == some v
    | none => false)

/-- The `search_filters = {"user_id": user_id}; search_filters.update(filters)`
— the caller's filter bindings shadow the base `user_id` binding. -/
def search_filters (filters : List (String × String)) (user_id : String) :
    List (String × String) :=
  filters ++ [("user_id", user_id)]

/-- ChromaDB `collection.query(query_embeddings=[qe], n_results=k,
where=w)` by its documented contract: apply the `where` equality filters
first, then rank ascending by the distance of each stored embedding to the
query embedding, then take `k`.  The embedding model and cosine distance
(external collaborators) are the abstract fixed-point function `dist`. -/
def chroma_query (dist : StoredChunk → Int) (st : List StoredChunk)
    (w : List (String × String)) (k : Nat) : List StoredChunk :=
  (stableSort (fun a b => dist a ≤ dist b)
    (st.filter (fun c => whereMatches w c.meta))).take k

/-- A result dict of `_format_chroma_results`; `final_score` and
`ai_analysis` are the keys added later by `_rerank_results` and
`_enhance_search_results`.  `relevance_score` is in thousandths,
`final_score` in five-thousandths (see the header). -/
structure Result where
  id : Nat
  text : List Char
  metadata : ChunkMeta
  relevance_score : Int
  chunk_index : Nat
  document_title : String
  document_type : String
  category : String
  tags : List String
  final_score : Option Int
  ai_analysis : Option AIAnalysis
  deriving DecidableEq

/-- The `_format_chroma_results`: one result per returned chunk, with
`id = metadata['document_id']` and
`relevance_score = 1.0 - distance if distance else 0.5` (so distance 0
gives 0.5, since `0.0` is falsy in Python). -/
def format_chroma_results (dist : StoredChunk → Int)
    (cs : List StoredChunk) : List Result :=
  cs.map (fun c =>
    { id := c.meta.document_id
      text := c.text
      metadata := c.meta
      relevance_score := if dist c == 0 then 500 else 1000 - dist c
      chunk_index := c.meta.chunk_index
      document_title := c.meta.document_title
      document_type := c.meta.document_type
      category := c.meta.category
      tags := c.meta.tags
      final_score := none
      ai_analysis := none })

/-- The stop-word set of `_extract_key_terms`. -/
def stop_words : List (List Char) :=
  ["the".toList, "a".toList, "an".toList, "and".toList, "or".toList,
   "but".toList, "in".toList, "on".toList, "at".toList, "to".toList,
   "for".toList, "of".toList, "with".toList, "by".toList]

/-- The `\w` of `re`: ASCII word characters (letters, digits, underscore). -/
def pyIsWord (c : Char) : Bool :=
  c.isAlphanum || c == '_'

/-- Single pass of `re.findall(r'\b\w+\b', s)`: accumulate the current
word run (reversed) and flush it at every non-word character. -/
def pyWordRunsAux : List Char → List Char → List (List Char)
  | [], acc => if acc.isEmpty then [] else [acc.reverse]
  | c :: cs, acc =>
    if pyIsWord c then pyWordRunsAux cs (c :: acc)
    else if acc.isEmpty then pyWordRunsAux cs []
    else acc.reverse :: pyWordRunsAux cs []

/-- The `re.findall(r'\b\w+\b', s)`: the maximal runs of word characters. -/
def pyWordRuns (l : List Char) : List (List Char) :=
  pyWordRunsAux l []

/-- The `_extract_key_terms`: lowercase, tokenize into word runs, drop stop
words and terms of length ≤ 2, keep the first 5. -/
def extract_key_terms (query : List Char) : List (List Char) :=
  ((pyWordRuns (pyLower query)).filter
    (fun t => decide (t ∉ stop_words ∧ 2 < t.length))).take 5

/-- The `_semantic_search`: Chroma query with the query embedding, formatted. -/
def semantic_search (dist : StoredChunk → Int) (st : List StoredChunk)
    (w : List (String × String)) (top_k : Nat) : List Result :=
  format_chroma_results dist (chroma_query dist st w top_k)

/-- The `_keyword_search`: extract key terms and query Chroma with them as
`query_texts` (`dk` is the abstract composite of Chroma's embedding of the
term list with cosine distance; the source formats the first query's
result arrays).  When the query yields no key terms, Chroma rejects the
empty `query_texts` list (or returns zero result arrays), so the `except`
branch — or the formatting of nothing — produces `[]`. -/
def keyword_search (dk : List (List Char) → StoredChunk → Int)
    (query : List Char) (st : List StoredChunk)
    (w : List (String × String)) (top_k : Nat) : List Result :=
  let key_terms := extract_key_terms query
  if key_terms.isEmpty then []
  else format_chroma_results (dk key_terms)
    (chroma_query (dk key_terms) st w top_k)

/-- The `_deduplicate_results`: drop results whose `id` (the document id of
`_format_chroma_results`) was already seen, keeping first occurrences. -/
def deduplicate_results (results : List Result) : List Result :=
  dedupBy Result.id results

/-- The composite score of `_rerank_results` in exact five-thousandths:
`0.4·relevance + min(0.2, len/1000)` (texts over 100 chars) `+ 0.1`
(created under 30 days ago) `+ 0.1` (category occurs in the lowercased
query; Python's `'' in s` is true, and so is `pyContains s []`). -/
def rerank_score (query : List Char) (today : Nat) (r : Result) : Int :=
  2 * r.relevance_score
    + (if 100 < r.text.length then min 1000 (5 * (r.text.length : Int)) else 0)
    + (if (today : Int) - (r.metadata.created_day : Int) < 30 then 500 else 0)
    + (if pyContains (pyLower query) (pyLower r.metadata.category.toList)
        then 500 else 0)

/-- The `_rerank_results`: set `final_score` on every result, then Python's
stable `sort(key=..., reverse=True)`. -/
def rerank_results (query : List Char) (today : Nat)
    (results : List Result) : List Result :=
  stableSort (fun a b => b.final_score.getD 0 ≤ a.final_score.getD 0)
    (results.map (fun r =>
      { r with final_score := some (rerank_score query today r) }))

/-- The `_hybrid_search`: `top_k // 2` candidates from each path, concatenated
semantic-first, deduplicated, re-ranked, truncated to `top_k`. -/
def hybrid_search (ds : StoredChunk → Int)
    (dk : List (List Char) → StoredChunk → Int) (today : Nat)
    (query : List Char) (st : List StoredChunk)
    (w : List (String × String)) (top_k : Nat) : List Result :=
  let semantic_results := semantic_search ds st w (top_k / 2)
  let keyword_results := keyword_search dk query st w (top_k / 2)
  let combined_results := semantic_results ++ keyword_results
  let unique_results := deduplicate_results combined_results
  (rerank_results query today unique_results).take top_k

/-- The `_enhance_search_results`: `none` models the generative call raising
(the `except` branch returns the results unchanged); otherwise every
result gets the analysis attached — parsed when `json.loads` succeeds on
the response, raw otherwise.  Empty result lists come back unchanged. -/
def enhance_search_results (ai : Option (Bool × List Char))
    (_query : List Char) (results : List Result) : List Result :=
  match results with
  | [] => results
  | _ =>
    match ai with
    | none => results
    | some (ok, content) =>
      let payload := if ok then AIAnalysis.parsed content
        else AIAnalysis.raw content
      results.map (fun r => { r with ai_analysis := some payload })

/-- The ranked results of `search` before AI enhancement: merge the base
`user_id` filter with the caller's filters and dispatch on `search_type`
(anything unknown falls back to semantic). -/
def search_pipeline (ds : StoredChunk → Int)
    (dk : List (List Char) → StoredChunk → Int) (today : Nat)
    (st : List StoredChunk) (query : List Char) (user_id : String)
    (filters : List (String × String)) (top_k : Nat)
    (search_type : String) : List Result :=
  let w := search_filters filters user_id
  if search_type == "semantic" then semantic_search ds st w top_k
  else if search_type == "keyword" then keyword_search dk query st w top_k
  else if search_type == "hybrid" then
    hybrid_search ds dk today query st w top_k
  else semantic_search ds st w top_k

/-- The `search`: the ranked pipeline followed by `_enhance_search_results`. -/
def search (ds : StoredChunk → Int)
    (dk : List (List Char) → StoredChunk → Int)
    (ai : Option (Bool × List Char)) (today : Nat)
    (st : List StoredChunk) (query : List Char) (user_id : String)
    (filters : List (String × String)) (top_k : Nat)
    (search_type : String) : List Result :=
  enhance_search_results ai query
    (search_pipeline ds dk today st query user_id filters top_k search_type)

end RagC

namespace RagC

/-- The `text.split('\n\n')`: split on non-overlapping occurrences of two
newlines, keeping empty pieces. -/
def splitParas : List Char → List (List Char)
  | [] => [[]]
  | '\n' :: '\n' :: rest => [] :: splitParas rest
  | c :: rest =>
    match splitParas rest with
    | [] => [[c]]
    | h :: t => (c :: h) :: t

/-- The delimiter class of `re.split(r'[.!?]+', s)`. -/
def isPunctChar (c : Char) : Bool :=
  c == '.' || c == '!' || c == '?'

/-- Single pass of `re.split(r'[.!?]+', s)`: accumulate the current piece
(reversed); a delimiter closes the piece and opens a run, further
delimiters inside a run are skipped. -/
def splitPunctAux : List Char → List Char → Bool → List (List Char)
  | [], acc, _ => [acc.reverse]
  | c :: cs, acc, inRun =>
    if isPunctChar c then
      if inRun then splitPunctAux cs [] true
      else acc.reverse :: splitPunctAux cs [] true
    else splitPunctAux cs (c :: acc) false

/-- The `re.split(r'[.!?]+', s)`: split on maximal delimiter runs, keeping
empty pieces at the ends. -/
def splitPunct (l : List Char) : List (List Char) :=
  splitPunctAux l [] false

/-- A chunk of the paragraph/sentence chunker `RAGService.chunk_text`,
with the recorded start/end positions and chunk type. -/
structure ParaChunk where
  text : List Char
  start : Nat
  stop : Nat
  ctype : String
  deriving DecidableEq

/-- The inner sentence loop of `chunk_text` for paragraphs over 1000
characters: strip each piece, skip empties (advancing by 1), keep only
sentences over 100 characters, advance by the stripped length + 1. -/
def sentence_chunks (sentence_start : Nat) :
    List (List Char) → List ParaChunk
  | [] => []
  | s :: rest =>
    let s' := pyStrip s
    if s'.isEmpty then sentence_chunks (sentence_start + s'.length + 1) rest
    else if 100 < s'.length then
      ⟨s', sentence_start, sentence_start + s'.length, "sentence"⟩ ::
        sentence_chunks (sentence_start + s'.length + 1) rest
    else sentence_chunks (sentence_start + s'.length + 1) rest

/-- The outer paragraph loop of `chunk_text`: strip each paragraph, skip
empties, split long paragraphs (> 1000 chars) by sentences, else emit the
paragraph as one chunk; positions advance by the stripped length + 2 (the
source reassigns `paragraph = paragraph.strip()` before measuring). -/
def para_chunks (pos : Nat) : List (List Char) → List ParaChunk
  | [] => []
  | p :: rest =>
    let p' := pyStrip p
    if p'.isEmpty then para_chunks (pos + p'.length + 2) rest
    else if 1000 < p'.length then
      sentence_chunks pos (splitPunct p') ++
        para_chunks (pos + p'.length + 2) rest
    else
      ⟨p', pos, pos + p'.length, "paragraph"⟩ ::
        para_chunks (pos + p'.length + 2) rest

/-- The `RAGService.chunk_text(text, metadata)` (the `metadata` argument is
unused by the source). -/
def chunk_text (text : List Char) : List ParaChunk :=
  para_chunks 0 (splitParas text)

/-- The metadata dict passed to `process_document`, restricted to the keys
the source reads (each via `dict.get` with a default). -/
structure DocMeta where
  title : Option String
  dtype : Option String
  category : Option String
  tags : List String
  deriving DecidableEq

/-- The `RAGService` ingestion state: the Chroma collection plus the fresh-id
counter modelling the `uuid.uuid4()` supply (document ids are counter
values; chunk ids `f"{doc_id}_chunk_{i}"` are the pairs). -/
structure ServiceState where
  collection : List StoredChunk
  uuid_counter : Nat
  deriving DecidableEq

/-- The `process_document(document_text, metadata, user_id)`: draw a fresh
document id — unconditionally, with no content-hash lookup — chunk the
text, build each chunk's metadata, append everything to the collection and
return the new document id. -/
def process_document (document_text : List Char) (metadata : DocMeta)
    (user_id : String) (today : Nat) (st : ServiceState) :
    Nat × ServiceState :=
  let doc_id := st.uuid_counter
  let chunks := chunk_text document_text
  let new_entries := chunks.enum.map (fun p =>
    ({ cid := (doc_id, p.1)
       text := p.2.text
       meta :=
        { document_id := doc_id
          user_id := user_id
          chunk_index := p.1
          start_position := p.2.start
          end_position := p.2.stop
          chunk_type := p.2.ctype
          document_title := metadata.title.getD "Unknown"
          document_type := metadata.dtype.getD "unknown"
          category := metadata.category.getD "general"
          tags := metadata.tags
          created_day := today } } : StoredChunk))
  (doc_id, { collection := st.collection ++ new_entries,
             uuid_counter := st.uuid_counter + 1 })

end RagC

/-- A concrete owner-"A" chunk for the `search_owner_scoped` witness. -/
def w1meta : RagC.ChunkMeta :=
  ⟨1, "A", 0, 0, 5, "paragraph", "T", "unknown", "general", [], 0⟩

def w1chunk : RagC.StoredChunk :=
  ⟨(1, 0), "hello".toList, w1meta⟩

def w1row : RagC.Result :=
  ⟨1, "hello".toList, w1meta, 900, 0, "T", "unknown", "general", [],
    none, none⟩

/-! ## C5: deduplication keeps the first occurrence, not the higher score -/

/-- Concrete fixtures for C5: one stored chunk that both retrieval paths
return, with semantic distance 500 (relevance 0.5) and keyword distance
100 (relevance 0.9). -/
def w5meta : RagC.ChunkMeta :=
  ⟨7, "A", 0, 0, 5, "paragraph", "T", "unknown", "general", [], 0⟩

def w5chunk : RagC.StoredChunk :=
  ⟨(7, 0), "hello".toList, w5meta⟩

def w5semRow : RagC.Result :=
  ⟨7, "hello".toList, w5meta, 500, 0, "T", "unknown", "general", [],
    none, none⟩

def w5kwRow : RagC.Result :=
  ⟨7, "hello".toList, w5meta, 900, 0, "T", "unknown", "general", [],
    none, none⟩

/-! ## C3: failure semantics of search -/

/-- Concrete fixture for C3: one stored chunk of owner "A" whose content
contains the query term. -/
def w3chunk : RagB.ChunkRow :=
  ⟨"c1", "A", "alpha beta".toList, 0, [], 0⟩

/-! ## C6: re-ingestion creates a second document -/

/-- Concrete fixtures for C6: the same text ingested twice for the same
owner, starting from an empty knowledge base. -/
def w6meta : RagC.DocMeta := ⟨none, none, none, []⟩

def w6st0 : RagC.ServiceState := ⟨[], 0⟩

def w6call1 : Nat × RagC.ServiceState :=
  RagC.process_document "Hello world.".toList w6meta "A" 0 w6st0

def w6call2 : Nat × RagC.ServiceState :=
  RagC.process_document "Hello world.".toList w6meta "A" 0 w6call1.2

theorem stableInsert_perm (le : α → α → Bool) (x : α) (l : List α) :
    (stableInsert le x l).Perm (x :: l) := by
  induction l with
  | nil => simp [stableInsert]
  | cons y ys ih =>
    simp only [stableInsert]
    split
    · exact List.Perm.refl _
    · exact (List.Perm.cons y ih).trans (List.Perm.swap x y ys)

theorem stableSort_perm (le : α → α → Bool) (l : List α) :
    (stableSort le l).Perm l := by
  induction l with
  | nil => simp [stableSort]
  | cons x xs ih =>
    exact (stableInsert_perm le x (stableSort le xs)).trans (List.Perm.cons x ih)

theorem mem_stableSort {le : α → α → Bool} {x : α} {l : List α} :
    x ∈ stableSort le l ↔ x ∈ l :=
  (stableSort_perm le l).mem_iff

theorem mem_dedupByLoop [DecidableEq β] {key : α → β} {seen : List β}
    {l : List α} {r : α} (h : r ∈ dedupByLoop key seen l) :
    r ∈ l ∧ key r ∉ seen := by
  induction l generalizing seen with
  | nil => simp [dedupByLoop] at h
  | cons a as ih =>
    simp only [dedupByLoop] at h
    split at h
    · rcases ih h with ⟨h1, h2⟩
      exact ⟨List.mem_cons_of_mem _ h1, h2⟩
    · rcases List.mem_cons.mp h with rfl | h'
      · exact ⟨List.mem_cons_self _ _, by assumption⟩
      · rcases ih h' with ⟨h1, h2⟩
        refine ⟨List.mem_cons_of_mem _ h1, fun hc => h2 ?_⟩
        exact List.mem_cons_of_mem _ hc

theorem mem_of_mem_dedupBy [DecidableEq β] {key : α → β} {l : List α} {r : α}
    (h : r ∈ dedupBy key l) : r ∈ l :=
  (mem_dedupByLoop h).1

theorem nodup_map_key_dedupByLoop [DecidableEq β] (key : α → β)
    (seen : List β) (l : List α) :
    ((dedupByLoop key seen l).map key).Nodup := by
  induction l generalizing seen with
  | nil => simp [dedupByLoop]
  | cons a as ih =>
    simp only [dedupByLoop]
    split
    · exact ih seen
    · simp only [List.map_cons, List.nodup_cons]
      refine ⟨fun hc => ?_, ih (key a :: seen)⟩
      rcases List.mem_map.mp hc with ⟨b, hb, hkb⟩
      exact (mem_dedupByLoop hb).2 (by simp [hkb])

theorem nodup_map_key_dedupBy [DecidableEq β] (key : α → β) (l : List α) :
    ((dedupBy key l).map key).Nodup :=
  nodup_map_key_dedupByLoop key [] l

/-! ## Slice lemmas -/

theorem pyBound_natCast (n a : Nat) : pyBound n (a : Nat) = min a n := by
  simp [pyBound]

theorem pySlice_natCast (l : List Char) (a b : Nat) :
    pySlice l (a : Nat) (b : Nat) = (l.drop a).take (b - a) := by
  simp only [pySlice, pyBound_natCast]
  rcases le_or_lt a l.length with ha | ha
  · rcases le_or_lt b l.length with hb | hb
    · simp [Nat.min_eq_left ha, Nat.min_eq_left hb]
    · rw [Nat.min_eq_left ha, Nat.min_eq_right (le_of_lt hb)]
      rw [List.take_of_length_le (List.length_drop a l).le,
        List.take_of_length_le (by rw [List.length_drop]; omega)]
  · rw [Nat.min_eq_right (le_of_lt ha)]
    rw [List.drop_eq_nil_of_le (le_refl _), List.drop_eq_nil_of_le (le_of_lt ha)]
    simp

theorem pySlice_zero_of_le (l : List Char) (e : Nat) (h : l.length ≤ e) :
    pySlice l 0 (e : Nat) = l := by
  have h0 : ((0 : Nat) : Int) = (0 : Int) := rfl
  rw [← h0, pySlice_natCast]
  simpa using List.take_of_length_le (by omega)

/-! ## Loop lemmas for the two chunkers -/

theorem chunk_text_loop_nil (text : List Char) (cs ov fuel : Nat) (start : Int)
    (h : (text.length : Int) ≤ start) :
    FileUpload.chunk_text_loop text cs ov (fuel + 1) start = some [] := by
  rw [FileUpload.chunk_text_loop, if_neg (not_lt.mpr h)]

theorem chunk_content_loop_nil (content : List Char) (cs ov fuel : Nat)
    (start : Int) (h : (content.length : Int) ≤ start) :
    RagB.chunk_content_loop content cs ov (fuel + 1) start = some [] := by
  rw [RagB.chunk_content_loop, if_neg (not_lt.mpr h)]

theorem chunk_step_of_ge (text : List Char) (cs : Nat) (start : Int)
    (h : (text.length : Int) ≤ start + cs) :
    FileUpload.chunk_step text cs start =
      (start + cs, pySlice text start (start + cs)) := by
  rw [FileUpload.chunk_step, if_neg (not_lt.mpr h)]

theorem chunk_step_fst_gt (text : List Char) (cs : Nat) (start : Int)
    (h : 0 < cs) : start < (FileUpload.chunk_step text cs start).1 := by
  rw [FileUpload.chunk_step]
  dsimp only
  split
  · split
    · rename_i hbp
      omega
    · omega
  · omega

/-! ## C4: short texts -/

/-- C4 (counterexample). The claim says every text `T` with
`len(T) ≤ chunk_size` (valid `overlap < chunk_size`) yields exactly one
chunk equal to `T.strip()`.  For `T = "abcdefgh"` (length 8 ≤ 10) with
`chunk_size = 10`, `overlap = 5 < 10`, `chunk_text` returns TWO chunks —
after the first chunk the loop restarts at `start = 10 - 5 = 5 < 8` and
emits the tail `"fgh"` again.  The empty text moreover yields zero
chunks, not one. -/
theorem chunk_single_cex :
    FileUpload.chunk_text "abcdefgh".toList 10 5 =
        some ["abcdefgh".toList, "fgh".toList] ∧
    FileUpload.chunk_text "abcdefgh".toList 10 5 ≠
        some [pyStrip "abcdefgh".toList] ∧
    FileUpload.chunk_text "".toList 10 5 = some [] :=
  ⟨by decide, by decide, by decide⟩

/-- C4 (amended). For every nonempty text `T` with
`len(T) ≤ chunk_size - overlap`, `chunk_text` returns exactly one chunk,
equal to `T.strip()` (and `_chunk_content` of the Building-AI variant
likewise returns exactly one chunk, equal to `T` unstripped). -/
theorem chunk_single_amended (text : List Char) (cs ov : Nat)
    (h0 : text ≠ []) (h1 : text.length + ov ≤ cs) :
    FileUpload.chunk_text text cs ov = some [pyStrip text] ∧
    RagB.chunk_content text cs ov = some [text] := by
  have hpos : 0 < text.length := List.length_pos.mpr h0
  obtain ⟨m, hm⟩ := Nat.exists_eq_succ_of_ne_zero (Nat.pos_iff_ne_zero.mp hpos)
  have hguard : (0 : Int) < (text.length : Int) := by exact_mod_cast hpos
  have hge : (text.length : Int) ≤ (0 : Int) + (cs : Int) := by
    omega
  have hslice : pySlice text 0 ((0 : Int) + (cs : Int)) = text := by
    have : ((0 : Int) + (cs : Int)) = ((cs : Nat) : Int) := by ring
    rw [this, pySlice_zero_of_le text cs (by omega)]
  have hnext : (text.length : Int) ≤ (0 : Int) + (cs : Int) - (ov : Int) := by
    omega
  constructor
  · rw [FileUpload.chunk_text, hm]
    rw [show m.succ + 1 = (m + 1) + 1 from rfl]
    rw [FileUpload.chunk_text_loop, if_pos (by rw [hm] at hguard ⊢; exact hguard)]
    have hstep : FileUpload.chunk_step text cs 0 = ((0 : Int) + cs, text) := by
      rw [chunk_step_of_ge text cs 0 hge, hslice]
    rw [hstep]
    dsimp only
    rw [show m + 1 = m + 1 from rfl,
      chunk_text_loop_nil text cs ov m ((0 : Int) + cs - ov) hnext]
    rfl
  · rw [RagB.chunk_content, hm]
    rw [show m.succ + 1 = (m + 1) + 1 from rfl]
    rw [RagB.chunk_content_loop, if_pos (by rw [hm] at hguard ⊢; exact hguard)]
    dsimp only
    rw [chunk_content_loop_nil text cs ov m ((0 : Int) + cs - ov) hnext]
    rw [hslice]

/-- Witness for `chunk_single_amended` at `T = "ab"`, `chunk_size = 5`,
`overlap = 1`. -/
theorem chunk_single_amended_witness :
    FileUpload.chunk_text "ab".toList 5 1 = some [pyStrip "ab".toList] ∧
    RagB.chunk_content "ab".toList 5 1 = some ["ab".toList] :=
  chunk_single_amended "ab".toList 5 1 (by decide) (by decide)

/-! ## C7: span coverage, C8: determinism -/

theorem chunk_text_loop_covers_aux (text : List Char) (cs ov : Nat)
    (hcs : 0 < cs) :
    ∀ (fuel : Nat) (start : Int) (chs : List SpanChunk),
      FileUpload.chunk_text_loop text cs ov fuel start = some chs →
      ∀ p : Int, start ≤ p → p < (text.length : Int) →
        ∃ c ∈ chs, c.start ≤ p ∧ p < c.stop := by
  intro fuel
  induction fuel with
  | zero =>
    intro start chs h
    simp [FileUpload.chunk_text_loop] at h
  | succ n ih =>
    intro start chs h p hsp hpl
    rw [FileUpload.chunk_text_loop] at h
    by_cases hg : start < (text.length : Int)
    · rw [if_pos hg] at h
      dsimp only at h
      cases hrec : FileUpload.chunk_text_loop text cs ov n
          ((FileUpload.chunk_step text cs start).1 - ov) with
      | none =>
        rw [hrec] at h
        exact absurd h (by simp)
      | some rest =>
        rw [hrec] at h
        simp only [Option.some.injEq] at h
        subst h
        by_cases hp : p < (FileUpload.chunk_step text cs start).1
        · exact ⟨_, List.mem_cons_self _ _, hsp, hp⟩
        · have hlt := chunk_step_fst_gt text cs start hcs
          obtain ⟨c, hc, h1, h2⟩ := ih _ rest hrec p (by omega) hpl
          exact ⟨c, List.mem_cons_of_mem _ hc, h1, h2⟩
    · rw [if_neg hg] at h
      simp only [Option.some.injEq] at h
      exact absurd hpl (by omega)

/-- C7. Every character position of the input is covered by the span
`[start, stop)` of at least one chunk produced by `chunk_text`, for every
run of the loop that terminates (any fuel that makes the loop finish; for
`overlap > chunk_size // 2` the Python loop can run forever, in which case
no chunk list exists and the claim is about nothing).  Spans are the
`start`/`end` loop variables recorded in `SpanChunk`. -/
theorem chunk_text_covers (text : List Char) (cs ov fuel : Nat)
    (chs : List SpanChunk) (hov : ov < cs)
    (h : FileUpload.chunk_text_loop text cs ov fuel 0 = some chs)
    (p : Int) (hp0 : 0 ≤ p) (hpl : p < (text.length : Int)) :
    ∃ c ∈ chs, c.start ≤ p ∧ p < c.stop :=
  chunk_text_loop_covers_aux text cs ov (by omega) fuel 0 chs h p hp0 hpl

/-- Witness for `chunk_text_covers`: chunking `"hello"` with
`chunk_size = 3`, `overlap = 1` yields spans `[0,3)`, `[2,5)`, `[4,7)`,
and position 4 is covered. -/
theorem chunk_text_covers_witness :
    ∃ c ∈ [(⟨0, 3, "hel".toList⟩ : SpanChunk), ⟨2, 5, "llo".toList⟩,
        ⟨4, 7, "o".toList⟩], c.start ≤ (4 : Int) ∧ (4 : Int) < c.stop :=
  chunk_text_covers "hello".toList 3 1 6 _ (by decide) (by decide) 4
    (by decide) (by decide)

/-- C8. `chunk_text` is deterministic: two invocations with identical
`(text, chunk_size, overlap)` return identical chunk sequences.  The
translated function is pure — the Python source reads no global state and
uses no randomness — so this is substitutivity. -/
theorem chunk_text_deterministic (t₁ t₂ : List Char) (cs₁ cs₂ ov₁ ov₂ : Nat)
    (ht : t₁ = t₂) (hc : cs₁ = cs₂) (ho : ov₁ = ov₂) :
    FileUpload.chunk_text t₁ cs₁ ov₁ = FileUpload.chunk_text t₂ cs₂ ov₂ := by
  subst ht hc ho
  rfl

/-- Witness for `chunk_text_deterministic` at a concrete input. -/
theorem chunk_text_deterministic_witness :
    FileUpload.chunk_text "abcdefgh".toList 10 5 =
      FileUpload.chunk_text "abcdefgh".toList 10 5 :=
  chunk_text_deterministic "abcdefgh".toList "abcdefgh".toList 10 10 5 5
    rfl rfl rfl

/-! ## C10: the `_chunk_content` slices -/

theorem chunk_content_loop_get (content : List Char) (size ov : Nat) :
    ∀ (fuel : Nat) (start : Int) (chs : List (List Char)),
      RagB.chunk_content_loop content size ov fuel start = some chs →
      ∀ i (hi : i < chs.length),
        chs.get ⟨i, hi⟩ =
          pySlice content (start + (i : Int) * ((size : Int) - (ov : Int)))
            (start + (i : Int) * ((size : Int) - (ov : Int)) + size) := by
  intro fuel
  induction fuel with
  | zero =>
    intro start chs h
    simp [RagB.chunk_content_loop] at h
  | succ n ih =>
    intro start chs h i hi
    rw [RagB.chunk_content_loop] at h
    by_cases hg : start < (content.length : Int)
    · rw [if_pos hg] at h
      dsimp only at h
      cases hrec : RagB.chunk_content_loop content size ov n
          (start + (size : Int) - ov) with
      | none =>
        rw [hrec] at h
        exact absurd h (by simp)
      | some rest =>
        rw [hrec] at h
        simp only [Option.some.injEq] at h
        subst h
        cases i with
        | zero =>
          simp only [List.get]
          norm_num
        | succ j =>
          rw [List.get_cons_succ]
          rw [ih (start + (size : Int) - ov) rest hrec j
            (by simpa using hi)]
          congr 1 <;> push_cast <;> ring
    · rw [if_neg hg] at h
      simp only [Option.some.injEq] at h
      subst h
      exact absurd hi (by simp)

/-- C10 (counterexample).  With `chunk_size = 10`, `chunk_overlap = 5`,
content `"0123456789abc"` (length 13) yields chunks at starts 0, 5, 10;
the SECOND chunk `"56789abc"` is not the last yet has length 8 ≠ 10,
because its window `[5, 15)` is clamped by the end of the content.  It
also does not begin with the final 5 characters `"67890"`-style overlap of
a full predecessor window as the claim requires for every chunk. -/
theorem chunk_content_cex :
    RagB.chunk_content "0123456789abc".toList 10 5 =
        some ["0123456789".toList, "56789abc".toList, "abc".toList] ∧
    ("56789abc".toList).length ≠ 10 :=
  ⟨by decide, by decide⟩

/-- C10 (amended).  Chunk `i` of `_chunk_content` is exactly the window
`content[i*(chunk_size-overlap) : i*(chunk_size-overlap)+chunk_size]`.
Consequently (a) every chunk whose window lies fully inside the content has
length exactly `chunk_size` (chunks clamped by the end of the content —
possibly several trailing ones — are shorter), and (b) every chunk after
the first starts exactly `chunk_size - overlap` after its predecessor, so
its first `min(overlap, its length)` characters coincide with its
predecessor's characters from position `chunk_size - overlap` on (its
final `overlap` characters when the predecessor is full length). -/
theorem chunk_content_slices (content : List Char) (size ov fuel : Nat)
    (chs : List (List Char)) (hov : ov < size)
    (h : RagB.chunk_content_loop content size ov fuel 0 = some chs) :
    (∀ i (hi : i < chs.length),
        chs.get ⟨i, hi⟩ = (content.drop (i * (size - ov))).take size) ∧
    (∀ i (hi : i < chs.length), i * (size - ov) + size ≤ content.length →
        (chs.get ⟨i, hi⟩).length = size) ∧
    (∀ i (hi : i + 1 < chs.length),
        (chs.get ⟨i + 1, hi⟩).take ov =
          ((chs.get ⟨i, Nat.lt_of_succ_lt hi⟩).drop (size - ov)).take
            (chs.get ⟨i + 1, hi⟩).length) := by
  have key : ∀ i (hi : i < chs.length),
      chs.get ⟨i, hi⟩ = (content.drop (i * (size - ov))).take size := by
    intro i hi
    have h1 := chunk_content_loop_get content size ov fuel 0 chs h i hi
    have e1 : (0 : Int) + (i : Int) * ((size : Int) - (ov : Int)) =
        ((i * (size - ov) : Nat) : Int) := by
      push_cast [Nat.cast_sub hov.le]
      ring
    have e2 : ((i * (size - ov) : Nat) : Int) + (size : Int) =
        ((i * (size - ov) + size : Nat) : Int) := by
      push_cast
      ring
    rw [e1, e2, pySlice_natCast, Nat.add_sub_cancel_left] at h1
    exact h1
  refine ⟨key, fun i hi hfull => ?_, fun i hi => ?_⟩
  · rw [key i hi, List.length_take, List.length_drop]
    omega
  · have hi' := Nat.lt_of_succ_lt hi
    rw [key (i + 1) hi, key i hi']
    have ha' : (i + 1) * (size - ov) = i * (size - ov) + (size - ov) := by
      ring
    rw [ha']
    rw [List.take_take, Nat.min_eq_left hov.le]
    rw [List.drop_take, List.drop_drop]
    rw [show size - (size - ov) = ov from by omega]
    rw [List.take_take]
    rcases le_or_lt ov
        (((content.drop (i * (size - ov) + (size - ov))).take size).length)
      with hL | hL
    · rw [Nat.min_eq_right hL]
    · have hx : (content.drop (i * (size - ov) + (size - ov))).length < ov := by
        rw [List.length_take] at hL
        omega
      rw [List.take_of_length_le hx.le]
      rw [show ((content.drop (i * (size - ov) + (size - ov))).take
          size).length ⊓ ov =
          (content.drop (i * (size - ov) + (size - ov))).length from by
        rw [List.length_take]; omega]
      rw [List.take_length]

/-- Witness for `chunk_content_slices` on the length-13 example: the first
chunk has full length 10 and the third chunk's first 5 characters agree
with its predecessor from position 5 on. -/
theorem chunk_content_slices_witness :
    (["0123456789".toList, "56789abc".toList, "abc".toList].get
        ⟨0, by norm_num⟩).length = 10 :=
  (chunk_content_slices "0123456789abc".toList 10 5 14
      ["0123456789".toList, "56789abc".toList, "abc".toList]
      (by decide) (by decide)).2.1 0 (by norm_num) (by decide)

/-! ## The ChromaDB-backed `RAGService` of `voiceloop-backend` -/

theorem dropWhile_length_le (p : α → Bool) (l : List α) :
    (l.dropWhile p).length ≤ l.length := by
  induction l with
  | nil => simp [List.dropWhile]
  | cons a as ih =>
    rw [List.dropWhile]
    split
    · exact Nat.le_succ_of_le ih
    · exact Nat.le_refl _

/-! ## Membership lemmas for the Chroma pipeline -/

theorem mem_chroma_query {dist : RagC.StoredChunk → Int}
    {st : List RagC.StoredChunk} {w : List (String × String)} {k : Nat}
    {c : RagC.StoredChunk} (h : c ∈ RagC.chroma_query dist st w k) :
    RagC.whereMatches w c.meta = true := by
  have h1 : c ∈ stableSort (fun a b => dist a ≤ dist b)
      (st.filter fun c => RagC.whereMatches w c.meta) :=
    List.Sublist.mem h (List.take_sublist _ _)
  exact (List.mem_filter.mp (mem_stableSort.mp h1)).2

theorem mem_format_chroma {dist : RagC.StoredChunk → Int}
    {cs : List RagC.StoredChunk} {r : RagC.Result}
    (h : r ∈ RagC.format_chroma_results dist cs) :
    ∃ c ∈ cs, r.metadata = c.meta := by
  rcases List.mem_map.mp h with ⟨c, hc, rfl⟩
  exact ⟨c, hc, rfl⟩

theorem lookup_append_of_no_key {l1 l2 : List (String × String)} {k : String}
    (h : ∀ kv ∈ l1, kv.1 ≠ k) : (l1 ++ l2).lookup k = l2.lookup k := by
  induction l1 with
  | nil => rfl
  | cons a as ih =>
    have hk : (k == a.1) = false :=
      beq_eq_false_iff_ne.mpr (Ne.symm (h a (List.mem_cons_self _ _)))
    simp only [List.cons_append, List.lookup, hk]
    exact ih fun kv hkv => h kv (List.mem_cons_of_mem _ hkv)

theorem user_id_of_whereMatches {filters : List (String × String)}
    {uid : String} {m : RagC.ChunkMeta}
    (hf : ∀ kv ∈ filters, kv.1 ≠ "user_id")
    (h : RagC.whereMatches (RagC.search_filters filters uid) m = true) :
    m.user_id = uid := by
  have hmem : (("user_id", uid) : String × String) ∈
      RagC.search_filters filters uid := by
    simp [RagC.search_filters]
  have hlook : (RagC.search_filters filters uid).lookup "user_id" =
      some uid := by
    rw [RagC.search_filters, lookup_append_of_no_key hf]
    rfl
  have hall := List.all_eq_true.mp h _ hmem
  rw [hlook] at hall
  have : RagC.metaGet m "user_id" = some uid := by
    simpa using hall
  simpa [RagC.metaGet] using this

theorem mem_rerank {query : List Char} {today : Nat} {l : List RagC.Result}
    {r : RagC.Result} (h : r ∈ RagC.rerank_results query today l) :
    ∃ r0 ∈ l, r.metadata = r0.metadata ∧ r.id = r0.id := by
  rcases List.mem_map.mp (mem_stableSort.mp h) with ⟨r0, hr0, rfl⟩
  exact ⟨r0, hr0, rfl, rfl⟩

theorem mem_enhance {ai : Option (Bool × List Char)} {query : List Char}
    {l : List RagC.Result} {r : RagC.Result}
    (h : r ∈ RagC.enhance_search_results ai query l) :
    ∃ r0 ∈ l, r.metadata = r0.metadata ∧ r.id = r0.id := by
  cases l with
  | nil => simp [RagC.enhance_search_results] at h
  | cons a as =>
    cases ai with
    | none => exact ⟨r, by simpa [RagC.enhance_search_results] using h, rfl, rfl⟩
    | some p =>
      obtain ⟨ok, content⟩ := p
      simp only [RagC.enhance_search_results] at h
      rcases List.mem_map.mp h with ⟨r0, hr0, rfl⟩
      exact ⟨r0, hr0, rfl, rfl⟩

theorem mem_keyword_search {dk : List (List Char) → RagC.StoredChunk → Int}
    {query : List Char} {st : List RagC.StoredChunk}
    {w : List (String × String)} {k : Nat} {r : RagC.Result}
    (h : r ∈ RagC.keyword_search dk query st w k) :
    ∃ c ∈ RagC.chroma_query (dk (RagC.extract_key_terms query)) st w k,
      r.metadata = c.meta := by
  simp only [RagC.keyword_search] at h
  by_cases he : (RagC.extract_key_terms query).isEmpty
  · rw [if_pos he] at h
    exact absurd h (List.not_mem_nil r)
  · rw [if_neg he] at h
    exact mem_format_chroma h

theorem user_id_of_mem_pipeline {ds : RagC.StoredChunk → Int}
    {dk : List (List Char) → RagC.StoredChunk → Int} {today : Nat}
    {st : List RagC.StoredChunk} {query : List Char} {uid : String}
    {filters : List (String × String)} {tk : Nat} {ty : String}
    {r : RagC.Result} (hf : ∀ kv ∈ filters, kv.1 ≠ "user_id")
    (hr : r ∈ RagC.search_pipeline ds dk today st query uid filters tk ty) :
    r.metadata.user_id = uid := by
  have hsem : ∀ d k (x : RagC.Result), x ∈ RagC.semantic_search d st
      (RagC.search_filters filters uid) k → x.metadata.user_id = uid := by
    intro d k x hx
    rcases mem_format_chroma hx with ⟨c, hc, hmeta⟩
    rw [hmeta]
    exact user_id_of_whereMatches hf (mem_chroma_query hc)
  unfold RagC.search_pipeline at hr
  split at hr
  · exact hsem ds tk r hr
  · split at hr
    · rcases mem_keyword_search hr with ⟨c, hc, hmeta⟩
      rw [hmeta]
      exact user_id_of_whereMatches hf (mem_chroma_query hc)
    · split at hr
      · unfold RagC.hybrid_search at hr
        have hr1 := List.Sublist.mem hr (List.take_sublist _ _)
        rcases mem_rerank hr1 with ⟨r0, hr0, hmeta, _⟩
        have hr2 := mem_of_mem_dedupBy hr0
        rw [hmeta]
        rcases List.mem_append.mp hr2 with hx | hx
        · exact hsem ds (tk / 2) r0 hx
        · rcases mem_keyword_search hx with ⟨c, hc, hmeta2⟩
          rw [hmeta2]
          exact user_id_of_whereMatches hf (mem_chroma_query hc)
      · exact hsem ds tk r hr

/-- C1.  Every result of `RAGService.search(query, user_id, filters,
top_k, search_type)` belongs to the given owner, for every search type and
limit and every caller filter dict that does not itself rebind the
`user_id` key (Python's `search_filters.update(filters)` would let such a
binding shadow the owner): the `user_id` pre-filter is part of the Chroma
`where` clause, which is applied before distance ranking, so a closer
chunk of another owner is never returned. -/
theorem search_owner_scoped (ds : RagC.StoredChunk → Int)
    (dk : List (List Char) → RagC.StoredChunk → Int)
    (ai : Option (Bool × List Char)) (today : Nat)
    (st : List RagC.StoredChunk) (query : List Char) (uid : String)
    (filters : List (String × String)) (tk : Nat) (ty : String)
    (r : RagC.Result) (hf : ∀ kv ∈ filters, kv.1 ≠ "user_id")
    (hr : r ∈ RagC.search ds dk ai today st query uid filters tk ty) :
    r.metadata.user_id = uid := by
  unfold RagC.search at hr
  rcases mem_enhance hr with ⟨r0, hr0, hmeta, _⟩
  rw [hmeta]
  exact user_id_of_mem_pipeline hf hr0

/-- Witness for `search_owner_scoped`: a concrete one-chunk store, with
the returned result shown to be a member of the search output. -/
theorem search_owner_scoped_witness : w1row.metadata.user_id = "A" :=
  search_owner_scoped (fun _ => 100) (fun _ _ => 0) none 0 [w1chunk]
    "q".toList "A" [] 10 "semantic" w1row (by simp) (by decide)

theorem rerank_ids_perm (q : List Char) (today : Nat)
    (l : List RagC.Result) :
    ((RagC.rerank_results q today l).map RagC.Result.id).Perm
      (l.map RagC.Result.id) := by
  unfold RagC.rerank_results
  refine ((stableSort_perm _ _).map RagC.Result.id).trans ?_
  rw [List.map_map]
  exact List.Perm.refl _

/-- C2.  Hybrid search — in both backend variants — returns at most
`limit` results, and the `id` fields of the returned results are pairwise
distinct: the merged candidate list is deduplicated (`dedupBy` on the id)
and only permuted by the stable descending sort before truncation. -/
theorem hybrid_search_limit_nodup :
    (∀ (st : RagB.SearchState) (q : List Char) (uid : String) (lim : Nat),
      (RagB.hybrid_search st q uid lim).length ≤ lim ∧
      ((RagB.hybrid_search st q uid lim).map RagB.ResultRow.id).Nodup) ∧
    (∀ (ds : RagC.StoredChunk → Int)
      (dk : List (List Char) → RagC.StoredChunk → Int) (today : Nat)
      (q : List Char) (st : List RagC.StoredChunk)
      (w : List (String × String)) (tk : Nat),
      (RagC.hybrid_search ds dk today q st w tk).length ≤ tk ∧
      ((RagC.hybrid_search ds dk today q st w tk).map RagC.Result.id).Nodup) := by
  constructor
  · intro st q uid lim
    simp only [RagB.hybrid_search]
    refine ⟨List.length_take_le _ _, ?_⟩
    rw [List.map_take]
    refine List.Sublist.nodup (List.take_sublist _ _) ?_
    have h0 := nodup_map_key_dedupBy RagB.ResultRow.id
      (RagB.semantic_search st q uid (lim / 2) ++
        RagB.keyword_search st q uid (lim / 2))
    exact ((stableSort_perm _ _).map RagB.ResultRow.id).nodup_iff.mpr h0
  · intro ds dk today q st w tk
    simp only [RagC.hybrid_search]
    refine ⟨List.length_take_le _ _, ?_⟩
    rw [List.map_take]
    refine List.Sublist.nodup (List.take_sublist _ _) ?_
    refine (rerank_ids_perm q today _).nodup_iff.mpr ?_
    exact nodup_map_key_dedupBy RagC.Result.id
      (RagC.semantic_search ds st w (tk / 2) ++
        RagC.keyword_search dk q st w (tk / 2))

/-- C5 (counterexample).  The query `"roadmap"` yields the key-term list
`["roadmap"]`, so the keyword path really queries Chroma; the chunk then
appears in the semantic candidates with raw relevance 0.5 and in the
keyword candidates with raw relevance 0.9, and `_hybrid_search`
deduplicates by id keeping the FIRST (semantic) occurrence: the surviving
merged entry carries 0.5 — not the higher of the two raw similarity
scores as the claim states. -/
theorem dedup_keeps_first_cex :
    RagC.extract_key_terms "roadmap".toList = ["roadmap".toList] ∧
    (RagC.semantic_search (fun _ => 500) [w5chunk] [("user_id", "A")]
        5).map RagC.Result.relevance_score = [500] ∧
    (RagC.keyword_search (fun _ _ => 100) "roadmap".toList [w5chunk]
        [("user_id", "A")] 5).map RagC.Result.relevance_score = [900] ∧
    (RagC.hybrid_search (fun _ => 500) (fun _ _ => 100) 0 "roadmap".toList
        [w5chunk] [("user_id", "A")] 10).map RagC.Result.relevance_score =
      [500] ∧
    ((500 : Int) < 900) :=
  ⟨by decide, by decide, by decide, by decide, by decide⟩

theorem dedupByLoop_append_cases [DecidableEq β] (key : α → β) :
    ∀ (S K : List α) (seen : List β) (r : α),
      r ∈ dedupByLoop key seen (S ++ K) →
      r ∈ S ∨ (r ∈ K ∧ ∀ s ∈ S, key s ≠ key r) := by
  intro S
  induction S with
  | nil =>
    intro K seen r h
    exact Or.inr ⟨(mem_dedupByLoop h).1, by simp⟩
  | cons a as ih =>
    intro K seen r h
    simp only [List.cons_append, dedupByLoop] at h
    split at h
    · rcases ih K seen r h with h1 | ⟨h1, h2⟩
      · exact Or.inl (List.mem_cons_of_mem _ h1)
      · refine Or.inr ⟨h1, fun s hs => ?_⟩
        rcases List.mem_cons.mp hs with rfl | hs'
        · intro hEq
          exact (mem_dedupByLoop h).2 (hEq ▸ (by assumption))
        · exact h2 s hs'
    · rcases List.mem_cons.mp h with rfl | h'
      · exact Or.inl (List.mem_cons_self _ _)
      · rcases ih K (key a :: seen) r h' with h1 | ⟨h1, h2⟩
        · exact Or.inl (List.mem_cons_of_mem _ h1)
        · refine Or.inr ⟨h1, fun s hs => ?_⟩
          rcases List.mem_cons.mp hs with rfl | hs'
          · intro hEq
            refine (mem_dedupByLoop h').2 ?_
            rw [← hEq]
            exact List.mem_cons_self _ _
          · exact h2 s hs'

/-- C5 (amended).  `_deduplicate_results` deduplicates the concatenation
`semantic ++ keyword` by id keeping the FIRST occurrence: whenever a chunk
id occurs in the semantic list, the surviving entry is the semantic one
with its own raw similarity score — the keyword score is discarded even
when it is higher. -/
theorem dedup_keeps_first_amended (S K : List RagC.Result)
    (r : RagC.Result) (hr : r ∈ RagC.deduplicate_results (S ++ K))
    (hid : ∃ s ∈ S, s.id = r.id) : r ∈ S := by
  rcases dedupByLoop_append_cases RagC.Result.id S K [] r hr with h | ⟨_, hnone⟩
  · exact h
  · rcases hid with ⟨s, hs, hseq⟩
    exact absurd hseq (hnone s hs)

/-- Witness for `dedup_keeps_first_amended` on the C5 fixtures. -/
theorem dedup_keeps_first_amended_witness : w5semRow ∈ [w5semRow] :=
  dedup_keeps_first_amended [w5semRow] [w5kwRow] w5semRow (by decide)
    (by decide)

/-- C3 (counterexample).  When both retrieval paths fail, `search`
returns the plain empty list — the very same value a healthy search over
an empty store returns — so no explicit "search unavailable" signal
exists; and when only the vector path fails, the output is the plain
keyword result row, whose fields (`id`, `content`, `chunk_index`,
`meta_data`, `title`, `file_type`, `created_at`, `similarity_score`,
`ai_insights`) include no `partial` marker of any kind. -/
theorem search_failure_no_signal_cex :
    RagB.search ⟨[w3chunk], true, true⟩ "alpha".toList "A" "hybrid" 10 =
        [] ∧
    RagB.search ⟨[], false, false⟩ "alpha".toList "A" "hybrid" 10 = [] ∧
    RagB.search ⟨[w3chunk], true, false⟩ "alpha".toList "A" "hybrid" 10 =
      [RagB.toKeywordRow w3chunk] :=
  ⟨by decide, by decide, by decide⟩

/-- C3 (amended).  If the vector path fails, hybrid `search` still
returns the keyword-only results (deduplicated, sorted, truncated), and
if both paths fail it returns the empty list; the translated function is
total, so no exception reaches the caller.  But no `partial=true` marker
and no "search unavailable" signal is attached: degraded outputs are
indistinguishable from healthy ones. -/
theorem search_degrades_to_keyword_only (st : RagB.SearchState)
    (q : List Char) (uid : String) (lim : Nat)
    (hsem : st.semanticFails = true) :
    (st.keywordFails = false →
      RagB.search st q uid "hybrid" lim =
        (RagB.sortBySimilarity (dedupBy RagB.ResultRow.id
          (RagB.keyword_search st q uid (lim / 2)))).take lim) ∧
    (st.keywordFails = true →
      RagB.search st q uid "hybrid" lim = []) := by
  constructor
  · intro hk
    simp [RagB.search, RagB.hybrid_search, RagB.semantic_search, hsem]
  · intro hk
    simp [RagB.search, RagB.hybrid_search, RagB.semantic_search,
      RagB.keyword_search, hsem, hk, dedupBy, dedupByLoop, stableSort,
      RagB.sortBySimilarity]

/-- Witness for `search_degrades_to_keyword_only` on the C3 fixture with
a failing vector path and a healthy keyword path. -/
theorem search_degrades_witness :
    RagB.search ⟨[w3chunk], true, false⟩ "alpha".toList "A" "hybrid" 10 =
      (RagB.sortBySimilarity (dedupBy RagB.ResultRow.id
        (RagB.keyword_search ⟨[w3chunk], true, false⟩ "alpha".toList "A"
          5))).take 10 :=
  (search_degrades_to_keyword_only ⟨[w3chunk], true, false⟩
    "alpha".toList "A" 10 rfl).1 rfl

/-! ## C9: augmenter failure is harmless -/

theorem enhance_none_eq (q : List Char) (l : List RagC.Result) :
    RagC.enhance_search_results none q l = l := by
  cases l <;> rfl

theorem enhance_none_eq_b (q : List Char) (l : List RagB.ResultRow) :
    RagB.enhance_search_results none q l = l := by
  cases l <;> rfl

/-- C9.  Failure of the generative result-augmentation step never fails
the overall search: when the OpenAI call raises (`ai = none`), the Chroma
variant's `search` returns exactly its ranked pipeline results, unchanged
and without analysis, and the Building-AI variant's
`enhance_search_results` returns its input unchanged.  Both functions are
total, so absent augmentation is a terminal state, not an error. -/
theorem search_augmenter_failure_harmless :
    (∀ (ds : RagC.StoredChunk → Int)
      (dk : List (List Char) → RagC.StoredChunk → Int) (today : Nat)
      (st : List RagC.StoredChunk) (q : List Char) (uid : String)
      (f : List (String × String)) (tk : Nat) (ty : String),
      RagC.search ds dk none today st q uid f tk ty =
        RagC.search_pipeline ds dk today st q uid f tk ty) ∧
    (∀ (q : List Char) (results : List RagB.ResultRow),
      RagB.enhance_search_results none q results = results) := by
  refine ⟨fun ds dk today st q uid f tk ty => ?_, enhance_none_eq_b⟩
  rw [RagC.search, enhance_none_eq]

/-- C6 (counterexample).  Ingesting the identical text for the same owner
twice yields TWO stored documents with distinct ids (0 and 1): the second
call does not detect the duplicate — `process_document` never computes or
compares a content hash (and the `KnowledgeDocument` model declares no
uniqueness over `(user_id, content_hash)`) — and its return value is a
plain fresh document id, not a distinguishable Conflict outcome. -/
theorem process_document_duplicate_cex :
    w6call1.1 = 0 ∧ w6call2.1 = 1 ∧ w6call1.1 ≠ w6call2.1 ∧
    w6call2.2.collection.map (fun c => c.meta.document_id) = [0, 1] ∧
    w6call2.2.collection.length = 2 :=
  ⟨by decide, by decide, by decide, by decide, by decide⟩

/-- C6 (amended).  `process_document` unconditionally draws a fresh
document id on every call (no content-hash check, no Conflict outcome in
its return type): re-ingesting any text for any owner returns a document
id different from the one the first call returned, so the store ends up
with two documents rather than one. -/
theorem process_document_fresh_id (text : List Char) (m : RagC.DocMeta)
    (uid : String) (today : Nat) (st : RagC.ServiceState) :
    (RagC.process_document text m uid today
        (RagC.process_document text m uid today st).2).1 ≠
      (RagC.process_document text m uid today st).1 ∧
    (RagC.process_document text m uid today st).2.uuid_counter =
      st.uuid_counter + 1 := by
  refine ⟨?_, rfl⟩
  simp [RagC.process_document]
